import Mathlib

/-!
Verification of the conversational-analytics explore evaluator core.

The definitions below are a shallow embedding of the TypeScript source:

* `src/src/components/ExploreDetails.tsx` — the usage aggregator
  (`fetchExploreDetails` field-weight accumulation and `sortedFields`);
* `src/src/components/ExploreAnalyzer.tsx` — the section deriver
  (`getSections`), the token estimator (`estimateTokens` and the
  prompt-size effect), and the generation orchestrator handlers
  (`handleExploreSelect`, `handleGenerateSectionLookml`,
  `handleContinueSectionLookml`, `handleGenerateAll`).

JavaScript numbers reaching the aggregator are integers produced by
`parseInt`, or `NaN` when `parseInt` finds no digits; they are modelled
by `JSNum` (exact integer arithmetic plus an absorbing `nan`, faithful
to IEEE behaviour on the integer range the code manipulates).
-/

/-- A JavaScript number as it occurs in the aggregator: an integer from
`parseInt`, or `NaN`. -/
inductive JSNum where
  | num (n : Int)
  | nan
deriving DecidableEq, Repr

/-- JavaScript `+` on `JSNum`: `NaN` absorbs. -/
def jsAdd : JSNum → JSNum → JSNum
  | JSNum.num a, JSNum.num b => JSNum.num (a + b)
  | _, _ => JSNum.nan

/-- JavaScript `-` on `JSNum`: `NaN` absorbs. -/
def jsSub : JSNum → JSNum → JSNum
  | JSNum.num a, JSNum.num b => JSNum.num (a - b)
  | _, _ => JSNum.nan

/-- JavaScript falsiness of a number: `0` and `NaN` are falsy. -/
def jsFalsyNum : JSNum → Bool
  | JSNum.num n => n = 0
  | JSNum.nan => true

/-- Value of `x || 0` in JavaScript for a possibly-absent number `x`
(`undefined`, `NaN` and `0` all give `0`). -/
def jsOrZero : Option JSNum → JSNum
  | none => JSNum.num 0
  | some v => if jsFalsyNum v then JSNum.num 0 else v

/-- Value of `s || "0"` in JavaScript for a possibly-absent string `s`
(`undefined` and `""` are falsy). -/
def jsOrStr (s : Option String) (d : String) : String :=
  match s with
  | none => d
  | some t => if t = "" then d else t

/-- Digits-to-number accumulator for `parseIntJS`. -/
def digitsToNat (ds : List Char) : Nat :=
  ds.foldl (fun acc c => acc * 10 + (c.toNat - '0'.toNat)) 0

/-- JavaScript `parseInt(s, 10)`: skip leading whitespace, read an
optional sign, then the longest digit prefix; `NaN` when no digits. -/
def parseIntJS (s : String) : JSNum :=
  let t := s.data.dropWhile Char.isWhitespace
  let signAndRest : Int × List Char :=
    match t with
    | '-' :: r => (-1, r)
    | '+' :: r => (1, r)
    | _ => (1, t)
  let ds := signAndRest.2.takeWhile Char.isDigit
  if ds.isEmpty then JSNum.nan
  else JSNum.num (signAndRest.1 * (digitsToNat ds : Int))

/-! ### The field-weight map (a JavaScript `Map<string, number>`)

A JS `Map` iterates in key-insertion order; `set` on an existing key
updates the value in place, keeping the key position, and appends new
keys at the end. -/

/-- `Map.get`: the value stored at `k`, if any. -/
def mapGet : List (String × JSNum) → String → Option JSNum
  | [], _ => none
  | (k, v) :: rest, f => if k = f then some v else mapGet rest f

/-- `Map.set`: replace in place, or append a new key at the end. -/
def mapSet : List (String × JSNum) → String → JSNum → List (String × JSNum)
  | [], k, v => [(k, v)]
  | (k', v') :: rest, k, v =>
      if k' = k then (k, v) :: rest else (k', v') :: mapSet rest k v

/-! ### Query records and the aggregation loop -/

/-- Outcome of `JSON.parse` on the record's serialized field list
(`query.formatted_fields`, falling back to `query.fields`; both absent
yields the empty array).  `throws` models a parse exception, which makes
the `catch` skip the whole record; `notArray` a successful parse that is
not an array, which the `Array.isArray` guard skips. -/
inductive ParsedFields where
  | throws
  | notArray
  | array (fs : List String)
deriving DecidableEq, Repr

/-- One history record as consumed by the aggregation loop: the parse
outcome of its field list and the raw `history.query_run_count`
attribute (absent = `none`). -/
structure QueryRecord where
  parsedFields : ParsedFields
  runCount : Option String
deriving DecidableEq, Repr

/-- One iteration of the `weightedFieldsData.forEach` body:
`fieldWeights.set(field, (fieldWeights.get(field) || 0) + queryCount)`
for each parsed field, with
`queryCount = parseInt(record['history.query_run_count'] || '0', 10)`. -/
def processRecord (m : List (String × JSNum)) (r : QueryRecord) :
    List (String × JSNum) :=
  match r.parsedFields with
  | ParsedFields.throws => m
  | ParsedFields.notArray => m
  | ParsedFields.array fs =>
      let queryCount := parseIntJS (jsOrStr r.runCount "0")
      fs.foldl (fun m f => mapSet m f (jsAdd (jsOrZero (mapGet m f)) queryCount)) m

/-- The accumulated `fieldWeights` map after the whole `forEach`. -/
def fieldWeights (recs : List QueryRecord) : List (String × JSNum) :=
  recs.foldl processRecord []

/-! ### `sortedFields`: `.sort(([, a], [, b]) => b - a)`

`Array.prototype.sort` is stable (ES2019) and per `SortCompare` a
comparator result of `NaN` is treated as `+0`.  The embedding uses the
stable insertion sort: each element is inserted after all earlier
elements it does not strictly precede, which is the observable behaviour
of the engine's stable sort. -/

/-- The comparator value `b - a` as consumed by `SortCompare`
(`NaN` ↦ `+0`). -/
def sortCompare (x y : String × JSNum) : Int :=
  match jsSub y.2 x.2 with
  | JSNum.nan => 0
  | JSNum.num v => v

/-- Stable descending insertion: place `x` before the first element it
strictly precedes (comparator `< 0`), after all elements it ties with. -/
def insertDesc (x : String × JSNum) : List (String × JSNum) → List (String × JSNum)
  | [] => [x]
  | y :: ys => if sortCompare x y < 0 then x :: y :: ys else y :: insertDesc x ys

/-- The stable sort of the map entries, in iteration (insertion) order. -/
def sortEntries (l : List (String × JSNum)) : List (String × JSNum) :=
  l.foldl (fun acc x => insertDesc x acc) []

/-- `sortedFields` of `ExploreDetails.tsx`: the accumulated map, sorted
by descending weight. -/
def sortedFields (recs : List QueryRecord) : List (String × JSNum) :=
  sortEntries (fieldWeights recs)

/-- Non-increasing-weight check for the output: adjacent pairs satisfy
IEEE `≥` (false on any comparison with `NaN`). -/
def wGeB : JSNum → JSNum → Bool
  | JSNum.num a, JSNum.num b => b ≤ a
  | _, _ => false

/-- The output is sorted by non-increasing weight (adjacent-pair check,
IEEE comparisons: any `NaN` fails). -/
def isSortedDesc : List (String × JSNum) → Bool
  | [] => true
  | [_] => true
  | x :: y :: rest => wGeB x.2 y.2 && isSortedDesc (y :: rest)

example : parseIntJS "5" = JSNum.num 5 := by decide
example : parseIntJS "abc" = JSNum.nan := by decide
example : parseIntJS "0" = JSNum.num 0 := by decide
example : parseIntJS " 42x" = JSNum.num 42 := by decide
example : parseIntJS "-7" = JSNum.num (-7) := by decide

example :
    fieldWeights
      [⟨ParsedFields.array ["a.x", "a.y"], some "5"⟩] =
      [("a.x", JSNum.num 5), ("a.y", JSNum.num 5)] := by decide

example :
    fieldWeights
      [⟨ParsedFields.array ["a.x"], some "5"⟩,
       ⟨ParsedFields.array ["a.x"], some "x"⟩] =
      [("a.x", JSNum.nan)] := by decide

example :
    sortedFields
      [⟨ParsedFields.array ["a"], some "x"⟩,
       ⟨ParsedFields.array ["b"], some "3"⟩,
       ⟨ParsedFields.array ["c"], some "5"⟩] =
      [("a", JSNum.nan), ("c", JSNum.num 5), ("b", JSNum.num 3)] := by decide

/-! ### The generation orchestrator (`ExploreAnalyzer.tsx`)

React state relevant to the claims, with each handler embedded as a pure
state transformer.  A handler that performs a `fetch` is split into its
synchronous prefix (up to the transport call; `none` when a guard
returns early and no request is issued) and its resolution on the
transport outcome, mirroring the `await` suspension point. -/

/-- Per-section output record (the value type of `sectionOutputs`). -/
structure SectionOutput where
  code : Option String
  isLoading : Bool
  isTruncated : Bool
  lastPrompt : Option String
  isContinuing : Bool
  copySuccess : Bool
deriving DecidableEq, Repr

/-- A join descriptor inside a parsed `raw_analysis`. -/
structure JoinDesc where
  name : Option String
  fromView : Option String
deriving DecidableEq, Repr

/-- Outcome of `JSON.parse(analysisResult.raw_analysis)`. -/
inductive RawAnalysis where
  | parseFail
  | parsed (view_name : Option String) (joins : Option (List JoinDesc))
deriving DecidableEq, Repr

/-- The fields of `AnalysisResult` the orchestrator reads. -/
structure AnalysisResult where
  model_name : String
  explore_name : String
  top_used_fields : Option (List (String × Int))
  raw_analysis : Option RawAnalysis
deriving DecidableEq, Repr

/-- The component state touched by the handlers under verification. -/
structure AnalyzerState where
  selectedExplore : String
  selectedFields : List String
  userDescription : String
  commonQuestions : String
  userGoals : String
  analysisResult : Option AnalysisResult
  error : Option String
  lastAnalyzed : Option String
  sectionOutputs : List (String × SectionOutput)
  selectedSections : List String
  useExtends : Bool
  isGeneratingSequentially : Bool
  currentSectionIndex : Nat
deriving DecidableEq, Repr

/-- Lookup in the `sectionOutputs` object (string-keyed, insertion order). -/
def soGet : List (String × SectionOutput) → String → Option SectionOutput
  | [], _ => none
  | (k, v) :: rest, s => if k = s then some v else soGet rest s

/-- Keyed update of the `sectionOutputs` object, preserving key order. -/
def soSet : List (String × SectionOutput) → String → SectionOutput →
    List (String × SectionOutput)
  | [], k, v => [(k, v)]
  | (k', v') :: rest, k, v =>
      if k' = k then (k, v) :: rest else (k', v') :: soSet rest k v

/-- The parsed body of a `/generate_ca_lookml` response, or a transport
failure (rejected fetch / thrown error). -/
inductive GenResponse where
  | success (ca_lookml_code : Option String) (is_truncated : Bool) (prompt : Option String)
  | failure
deriving DecidableEq, Repr

/-- JavaScript falsiness of a `string | null` value. -/
def jsFalsyStr : Option String → Bool
  | none => true
  | some s => s = ""

/-- `handleExploreSelect`: set the new explore and reset the analysis
result, error, timestamp, selected fields and the three context
strings.  (`sectionOutputs` and `selectedSections` are not touched.) -/
def handleExploreSelect (st : AnalyzerState) (explore : String) : AnalyzerState :=
  { st with
    selectedExplore := explore
    analysisResult := none
    error := none
    lastAnalyzed := none
    selectedFields := []
    userDescription := ""
    commonQuestions := ""
    userGoals := "" }

/-- Synchronous prefix of `handleGenerateSectionLookml` up to the
`fetch`: `none` when the `!analysisResult` guard returns early (no
request issued); otherwise the state after the loading update
(`...(prev[section] || {})` keeps only the old `code`, every other flag
is overwritten). -/
def generateSectionPre (st : AnalyzerState) (sec : String) : Option AnalyzerState :=
  match st.analysisResult with
  | none => none
  | some _ =>
      some { st with
        sectionOutputs := soSet st.sectionOutputs sec
          { code := (soGet st.sectionOutputs sec).bind (fun p => p.code)
            isLoading := true
            isTruncated := false
            lastPrompt := none
            isContinuing := false
            copySuccess := false } }

/-- Resolution of `handleGenerateSectionLookml` at the `await`: store
the response, or on a transport error store the literal error text in
`code` and clear the prompt. -/
def generateSectionResolve (st : AnalyzerState) (sec : String) (resp : GenResponse) :
    AnalyzerState :=
  match resp with
  | GenResponse.success code trunc prompt =>
      { st with
        sectionOutputs := soSet st.sectionOutputs sec
          { code := code
            isLoading := false
            isTruncated := trunc
            lastPrompt := prompt
            isContinuing := false
            copySuccess := false } }
  | GenResponse.failure =>
      { st with
        sectionOutputs := soSet st.sectionOutputs sec
          { code := some "Error generating LookML. Please try again."
            isLoading := false
            isTruncated := false
            lastPrompt := none
            isContinuing := false
            copySuccess := false } }

/-- `handleGenerateSectionLookml` as one step, given the transport
outcome; the boolean records whether a transport request was issued. -/
def handleGenerateSectionLookml (st : AnalyzerState) (sec : String)
    (resp : GenResponse) : AnalyzerState × Bool :=
  match generateSectionPre st sec with
  | none => (st, false)
  | some st1 => (generateSectionResolve st1 sec resp, true)

/-- Synchronous prefix of `handleContinueSectionLookml`: `none` when the
guard `!sectionState || !sectionState.lastPrompt || !sectionState.code`
returns early; otherwise the post-update state paired with the captured
`sectionState` snapshot the closure keeps using. -/
def continueSectionPre (st : AnalyzerState) (sec : String) :
    Option (AnalyzerState × SectionOutput) :=
  match soGet st.sectionOutputs sec with
  | none => none
  | some s0 =>
      if jsFalsyStr s0.lastPrompt || jsFalsyStr s0.code then none
      else
        some ({ st with
          sectionOutputs := soSet st.sectionOutputs sec
            { s0 with isContinuing := true, copySuccess := false } }, s0)

/-- Resolution of `handleContinueSectionLookml` at the `await`, using
the captured snapshot `s0`: on success append the fragment
(`sectionState.code + (data.ca_lookml_code || '')`) and store the new
truncation flag and prompt; on failure only clear `isContinuing`. -/
def continueSectionResolve (st : AnalyzerState) (sec : String) (s0 : SectionOutput)
    (resp : GenResponse) : AnalyzerState :=
  match resp with
  | GenResponse.success code trunc prompt =>
      { st with
        sectionOutputs := soSet st.sectionOutputs sec
          { s0 with
            code := some ((s0.code.getD "") ++ (code.getD ""))
            isTruncated := trunc
            lastPrompt := prompt
            isContinuing := false
            copySuccess := false } }
  | GenResponse.failure =>
      { st with
        sectionOutputs := soSet st.sectionOutputs sec
          { s0 with isContinuing := false } }

/-- `handleContinueSectionLookml` as one step, given the transport
outcome; the boolean records whether a transport request was issued. -/
def handleContinueSectionLookml (st : AnalyzerState) (sec : String)
    (resp : GenResponse) : AnalyzerState × Bool :=
  match continueSectionPre st sec with
  | none => (st, false)
  | some (st1, s0) => (continueSectionResolve st1 sec s0 resp, true)

/-- JS `field.split('.')`, written structurally on the character list
so that it evaluates by kernel reduction. -/
def splitDotAux : List Char → List Char → List String
  | [], cur => [String.mk cur.reverse]
  | c :: rest, cur =>
      if c = '.' then String.mk cur.reverse :: splitDotAux rest []
      else splitDotAux rest (c :: cur)

/-- JS `field.split('.')`. -/
def splitDot (s : String) : List String := splitDotAux s.data []

/-- JS `s.startsWith(pre)`, via the character lists. -/
def startsWithJS (s pre : String) : Bool := pre.data.isPrefixOf s.data

/-- Insertion into the JS `Set<string>` backing `getSections`: adds at
the end unless already present. -/
def addSection (l : List String) (s : String) : List String :=
  if s ∈ l then l else l ++ [s]

/-- JavaScript truthiness of a possibly-absent string (used for the
`if (exploreData.view_name)`-style guards). -/
def jsTruthyStr : Option String → Bool
  | none => false
  | some s => s ≠ ""

/-- The `top_used_fields.forEach` loop of `getSections`: a name that
splits on `'.'` into exactly two parts contributes its first part. -/
def sectionsFromFields (sections : List String) (tuf : List (String × Int)) :
    List String :=
  tuf.foldl (fun acc f =>
    match splitDot f.1 with
    | [viewName, _] => addSection acc viewName
    | _ => acc) sections

/-- `getSections`: the literal root marker `"explore"`, then for each
`top_used_fields` name that splits on `'.'` into exactly two parts the
first part, then from a parsed `raw_analysis` the truthy `view_name`
and each join's truthy `name` and `from`; a `raw_analysis` parse error
is swallowed. -/
def getSections (analysisResult : Option AnalysisResult) : List String :=
  match analysisResult with
  | none => []
  | some ar =>
      let sections := addSection [] "explore"
      let sections :=
        match ar.top_used_fields with
        | none => sections
        | some tuf => sectionsFromFields sections tuf
      match ar.raw_analysis with
      | none => sections
      | some RawAnalysis.parseFail => sections
      | some (RawAnalysis.parsed view_name joins) =>
          let sections :=
            match view_name with
            | some v => if v = "" then sections else addSection sections v
            | none => sections
          match joins with
          | none => sections
          | some js =>
              js.foldl (fun acc j =>
                let acc :=
                  match j.name with
                  | some n => if n = "" then acc else addSection acc n
                  | none => acc
                match j.fromView with
                | some f => if f = "" then acc else addSection acc f
                | none => acc) sections

/-! ### `handleGenerateAll`: the sequential bulk generation loop

The loop body is `setCurrentSectionIndex(i)` followed by
`await handleGenerateSectionLookml(selectedSectionsArray[i])`; under the
single-threaded event model the next iteration starts only once that
promise resolved.  The embedding also emits the observable transport
events so ordering properties can be stated. -/

/-- Observable events of a bulk run: the running-index report, the issue
of a transport request for a section, and its resolution. -/
inductive GenEvent where
  | setIndex (i : Nat)
  | request (sec : String)
  | resolved (sec : String) (resp : GenResponse)
deriving DecidableEq, Repr

/-- The `for` loop of `handleGenerateAll`, with the transport outcomes
supplied by `oracle` (the response to the `i`-th request). -/
def runSections : AnalyzerState → List String → (Nat → GenResponse) → Nat →
    AnalyzerState × List GenEvent
  | st, [], _, _ => (st, [])
  | st, sec :: rest, oracle, i =>
      let st1 := { st with currentSectionIndex := i }
      let step := handleGenerateSectionLookml st1 sec (oracle i)
      let evts :=
        if step.2 then
          [GenEvent.setIndex i, GenEvent.request sec, GenEvent.resolved sec (oracle i)]
        else [GenEvent.setIndex i]
      let tail := runSections step.1 rest oracle (i + 1)
      (tail.1, evts ++ tail.2)

/-- `handleGenerateAll`: guard on a missing analysis result and an empty
selection, clear `sectionOutputs`, then run the selected sections
sequentially, reporting the index before each one. -/
def handleGenerateAll (st : AnalyzerState) (oracle : Nat → GenResponse) :
    AnalyzerState × List GenEvent :=
  match st.analysisResult with
  | none => (st, [])
  | some _ =>
      if st.selectedSections.length = 0 then
        ({ st with error := some "Please select at least one section to generate" }, [])
      else
        let st1 := { st with
          isGeneratingSequentially := true
          currentSectionIndex := 0
          sectionOutputs := [] }
        let run := runSections st1 st.selectedSections oracle 0
        ({ run.1 with isGeneratingSequentially := false, currentSectionIndex := 0 }, run.2)

/-! ### The token estimator and the prompt-size effect -/

/-- `estimateTokens`: `Math.ceil(text.length / 4)`. -/
def estimateTokens (text : String) : Nat := (text.length + 3) / 4

/-- `Array.prototype.join(', ')`. -/
def joinFields : List String → String
  | [] => ""
  | [x] => x
  | x :: y :: rest => x ++ ", " ++ joinFields (y :: rest)

/-- The simulated prompt of the prompt-size `useEffect`: the explore
template over all field names, or the view template over the fields
whose name starts with `section + '.'`. -/
def buildPrompt (ar : AnalysisResult) (userDescription commonQuestions userGoals : String)
    (sec : String) : String :=
  if sec = "explore" then
    "You are an expert LookML developer. Generate the LookML for the explore \x27" ++
    ar.explore_name ++ "\x27 in model \x27" ++ ar.model_name ++
    "\x27, implementing as many of the summarized recommendations as possible for Conversational Analytics readiness. Use the weighted fields to prioritize which joins or explore-level settings to improve. Use the user context to inform labels and descriptions. Output only the LookML code for the explore, ready to copy/paste into a LookML project.\n\nUser Description: " ++
    userDescription ++ "\nCommon Questions: " ++ commonQuestions ++
    "\nUser Goals: " ++ userGoals ++
    "\nWeighted Fields (most important first): " ++
    joinFields ((ar.top_used_fields.getD []).map (fun f => f.1)) ++
    "\nSummarized Recommendations:"
  else
    let viewFields := (ar.top_used_fields.getD []).filter
      (fun f => startsWithJS f.1 (sec ++ "."))
    "You are an expert LookML developer. Generate the LookML for the view \x27" ++
    sec ++ "\x27 in model \x27" ++ ar.model_name ++
    "\x27, implementing as many of the summarized recommendations as possible for Conversational Analytics readiness. Use the weighted fields to prioritize which fields to improve. Use the user context to inform labels and descriptions. Output only the LookML code for the view, ready to copy/paste into a LookML project.\n\nUser Description: " ++
    userDescription ++ "\nCommon Questions: " ++ commonQuestions ++
    "\nUser Goals: " ++ userGoals ++
    "\nWeighted Fields (most important first): " ++
    joinFields (viewFields.map (fun f => f.1)) ++
    "\nSummarized Recommendations:"

/-- The prompt-size `useEffect` body once an analysis result is present:
`(0, false)` with no selected section, else the token estimate of the
simulated prompt for the first selected section and the `> 30000`
warning flag. -/
def promptSizeEffect (ar : AnalysisResult) (userDescription commonQuestions userGoals : String)
    (selectedSections : List String) : Nat × Bool :=
  match selectedSections with
  | [] => (0, false)
  | sec :: _ =>
      let tokenCount := estimateTokens
        (buildPrompt ar userDescription commonQuestions userGoals sec)
      (tokenCount, tokenCount > 30000)

example :
    getSections (some (AnalysisResult.mk "m" "e"
      (some [("orders.total", 10), ("orders.count", 3), ("users.name", 1)]) none)) =
      ["explore", "orders", "users"] := by decide

/-! ### Helper lemmas on the section-output map -/

theorem soGet_soSet_self (m : List (String × SectionOutput)) (k : String)
    (v : SectionOutput) : soGet (soSet m k v) k = some v := by
  induction m with
  | nil => simp [soSet, soGet]
  | cons p rest ih =>
      obtain ⟨k', v'⟩ := p
      by_cases h : k' = k
      · subst h; simp [soSet, soGet]
      · simp [soSet, soGet, h, ih]

/-- A convenient concrete base state for concrete-input theorems. -/
def baseState : AnalyzerState :=
  { selectedExplore := "m/e"
    selectedFields := ["orders.total"]
    userDescription := "d"
    commonQuestions := "q"
    userGoals := "g"
    analysisResult := some (AnalysisResult.mk "m" "e" none none)
    error := none
    lastAnalyzed := some "t"
    sectionOutputs := []
    selectedSections := []
    useExtends := false
    isGeneratingSequentially := false
    currentSectionIndex := 0 }

/-- `baseState` with section `"orders"` already Generating (its
`isLoading` flag set), as left by a first in-flight generate request. -/
def c1State : AnalyzerState :=
  { baseState with
    sectionOutputs := [("orders", SectionOutput.mk none true false none false false)] }

/-- Claim C1, counterexample: with section `"orders"` already in the
Generating state (`isLoading = true`), triggering the per-section
generate operation again still issues a transport request (the handler
has no duplicate-submission guard), contradicting the claim that no
second request is issued. -/
theorem c1_counterexample :
    (soGet c1State.sectionOutputs "orders").map SectionOutput.isLoading = some true ∧
    (handleGenerateSectionLookml c1State "orders" GenResponse.failure).2 = true := by
  decide

/-- Claim C1, amended: the per-section generate handler issues a
transport request whenever an analysis result is present — regardless of
the section's `isLoading`/`isContinuing` flags; it has no
duplicate-submission guard (duplicate suppression exists only in the UI,
which renders no per-section generate trigger and disables the bulk and
continue buttons while their own run is active). -/
theorem c1_generate_always_issues_request (st : AnalyzerState) (sec : String)
    (resp : GenResponse) (ar : AnalysisResult)
    (h : st.analysisResult = some ar) :
    (handleGenerateSectionLookml st sec resp).2 = true := by
  simp [handleGenerateSectionLookml, generateSectionPre, h]

/-- Witness for `c1_generate_always_issues_request` at `c1State`. -/
theorem c1_witness :
    (handleGenerateSectionLookml c1State "orders" GenResponse.failure).2 = true :=
  c1_generate_always_issues_request c1State "orders" GenResponse.failure
    (AnalysisResult.mk "m" "e" none none) (by decide)

/-- `baseState` with accumulated section outputs and a selection, to
exhibit what an explore change leaves behind. -/
def c2State : AnalyzerState :=
  { baseState with
    sectionOutputs :=
      [("orders", SectionOutput.mk (some "view: orders {}") false false (some "p") false false)]
    selectedSections := ["orders"] }

/-- Claim C2, counterexample: changing the selected explore leaves the
per-section outputs map and the selected-sections set untouched (and
non-empty), contradicting the claim that every per-section state record
is destroyed. -/
theorem c2_counterexample :
    (handleExploreSelect c2State "m2/e2").sectionOutputs = c2State.sectionOutputs ∧
    (handleExploreSelect c2State "m2/e2").selectedSections = c2State.selectedSections ∧
    c2State.sectionOutputs ≠ [] ∧
    c2State.selectedSections ≠ [] := by
  decide

/-- Claim C2, amended: changing the selected explore resets the analysis
result, error, timestamp, selected fields and the three context strings,
but leaves the per-section outputs map and the selected-sections set
unchanged (the outputs map is cleared only when a later bulk generation
starts). -/
theorem c2_explore_select_resets (st : AnalyzerState) (explore : String) :
    (handleExploreSelect st explore).sectionOutputs = st.sectionOutputs ∧
    (handleExploreSelect st explore).selectedSections = st.selectedSections ∧
    (handleExploreSelect st explore).selectedExplore = explore ∧
    (handleExploreSelect st explore).analysisResult = none ∧
    (handleExploreSelect st explore).error = none ∧
    (handleExploreSelect st explore).lastAnalyzed = none ∧
    (handleExploreSelect st explore).selectedFields = [] ∧
    (handleExploreSelect st explore).userDescription = "" ∧
    (handleExploreSelect st explore).commonQuestions = "" ∧
    (handleExploreSelect st explore).userGoals = "" := by
  simp [handleExploreSelect]

/-- Claim C5: a section with accumulated code `c` and stored prompt `p`,
on a successful continuation returning fragment `f` with truncation flag
`false`, ends not-truncated and not-continuing with code `c ++ f`, in
that order. -/
theorem c5_continuation_success_appends (st : AnalyzerState) (sec : String)
    (s0 : SectionOutput) (c p f : String) (pr : Option String)
    (h0 : soGet st.sectionOutputs sec = some s0)
    (hc : s0.code = some c) (hc0 : c ≠ "")
    (hp : s0.lastPrompt = some p) (hp0 : p ≠ "") :
    (handleContinueSectionLookml st sec (GenResponse.success (some f) false pr)).2 = true ∧
    soGet (handleContinueSectionLookml st sec
        (GenResponse.success (some f) false pr)).1.sectionOutputs sec =
      some { s0 with
        code := some (c ++ f)
        isTruncated := false
        lastPrompt := pr
        isContinuing := false
        copySuccess := false } := by
  simp [handleContinueSectionLookml, continueSectionPre, h0, jsFalsyStr, hp, hc,
    hp0, hc0, continueSectionResolve, soGet_soSet_self]

/-- Witness for `c5_continuation_success_appends` at a concrete
truncated section. -/
theorem c5_witness :
    soGet (handleContinueSectionLookml
        { baseState with sectionOutputs :=
            [("orders", SectionOutput.mk (some "AB") false true (some "p") false false)] }
        "orders" (GenResponse.success (some "CD") false (some "p2"))).1.sectionOutputs
      "orders" =
      some (SectionOutput.mk (some "ABCD") false false (some "p2") false false) :=
  (c5_continuation_success_appends
    { baseState with sectionOutputs :=
        [("orders", SectionOutput.mk (some "AB") false true (some "p") false false)] }
    "orders" (SectionOutput.mk (some "AB") false true (some "p") false false)
    "AB" "p" "CD" (some "p2") (by decide) (by decide) (by decide) (by decide)
    (by decide)).2

/-- Claim C6: a failed continuation leaves the section's accumulated
code, stored prompt and truncation flag unchanged, clearing only the
transient continuing flag; when the section was not mid-continuation
before, it returns exactly to its pre-continuation state. -/
theorem c6_continuation_failure_preserves (st : AnalyzerState) (sec : String)
    (s0 : SectionOutput) (c p : String)
    (h0 : soGet st.sectionOutputs sec = some s0)
    (hc : s0.code = some c) (hc0 : c ≠ "")
    (hp : s0.lastPrompt = some p) (hp0 : p ≠ "") :
    (handleContinueSectionLookml st sec GenResponse.failure).2 = true ∧
    soGet (handleContinueSectionLookml st sec
        GenResponse.failure).1.sectionOutputs sec =
      some { s0 with isContinuing := false } ∧
    (s0.isContinuing = false →
      soGet (handleContinueSectionLookml st sec
          GenResponse.failure).1.sectionOutputs sec = some s0) := by
  refine ⟨?_, ?_, ?_⟩
  · simp [handleContinueSectionLookml, continueSectionPre, h0, jsFalsyStr, hp, hc,
      hp0, hc0]
  · simp [handleContinueSectionLookml, continueSectionPre, h0, jsFalsyStr, hp, hc,
      hp0, hc0, continueSectionResolve, soGet_soSet_self]
  · intro hcont
    simp [handleContinueSectionLookml, continueSectionPre, h0, jsFalsyStr, hp, hc,
      hp0, hc0, continueSectionResolve, soGet_soSet_self]
    obtain ⟨a, b, c', d, e, g⟩ := s0
    simp only at hc hp hcont
    simp [hc, hp, hcont]

/-- Witness for `c6_continuation_failure_preserves` at a concrete
truncated section. -/
theorem c6_witness :
    soGet (handleContinueSectionLookml
        { baseState with sectionOutputs :=
            [("orders", SectionOutput.mk (some "AB") false true (some "p") false false)] }
        "orders" GenResponse.failure).1.sectionOutputs "orders" =
      some (SectionOutput.mk (some "AB") false true (some "p") false false) :=
  (c6_continuation_failure_preserves
    { baseState with sectionOutputs :=
        [("orders", SectionOutput.mk (some "AB") false true (some "p") false false)] }
    "orders" (SectionOutput.mk (some "AB") false true (some "p") false false)
    "AB" "p" (by decide) (by decide) (by decide) (by decide) (by decide)).2.2
    (by decide)

/-- Claim C10: a failed per-section generation stores the literal error
text in the section's `code` field itself, with the truncation flag
false and the stored prompt cleared; and because the prompt is cleared,
a subsequent continue request is rejected before any transport call. -/
theorem c10_generate_failure_state (st : AnalyzerState) (sec : String)
    (ar : AnalysisResult) (resp2 : GenResponse)
    (h : st.analysisResult = some ar) :
    (handleGenerateSectionLookml st sec GenResponse.failure).2 = true ∧
    soGet (handleGenerateSectionLookml st sec
        GenResponse.failure).1.sectionOutputs sec =
      some (SectionOutput.mk (some "Error generating LookML. Please try again.")
        false false none false false) ∧
    (handleContinueSectionLookml
        (handleGenerateSectionLookml st sec GenResponse.failure).1 sec resp2).2 = false := by
  refine ⟨?_, ?_, ?_⟩
  · simp [handleGenerateSectionLookml, generateSectionPre, h]
  · simp [handleGenerateSectionLookml, generateSectionPre, h,
      generateSectionResolve, soGet_soSet_self]
  · simp [handleContinueSectionLookml, continueSectionPre,
      handleGenerateSectionLookml, generateSectionPre, h,
      generateSectionResolve, soGet_soSet_self, jsFalsyStr]

/-- Witness for `c10_generate_failure_state` at `baseState`. -/
theorem c10_witness :
    soGet (handleGenerateSectionLookml baseState "orders"
        GenResponse.failure).1.sectionOutputs "orders" =
      some (SectionOutput.mk (some "Error generating LookML. Please try again.")
        false false none false false) :=
  (c10_generate_failure_state baseState "orders" (AnalysisResult.mk "m" "e" none none)
    GenResponse.failure (by decide)).2.1

/-! ### Claim C7: the bulk-generate loop is strictly sequential -/

/-- Specification trace of a bulk run over an ordered section list: for
the `i`-th section, the index report, then its (single) transport
request, then its resolution — each section fully resolved before the
next block starts, failures included. -/
def bulkTrace : List String → (Nat → GenResponse) → Nat → List GenEvent
  | [], _, _ => []
  | s :: rest, oracle, i =>
      GenEvent.setIndex i :: GenEvent.request s :: GenEvent.resolved s (oracle i) ::
        bulkTrace rest oracle (i + 1)

/-- The sections named by the request events of a trace, in order. -/
def requestedSections (evts : List GenEvent) : List String :=
  evts.filterMap (fun e =>
    match e with
    | GenEvent.request s => some s
    | _ => none)

theorem generateSection_preserves_analysisResult (st : AnalyzerState) (sec : String)
    (resp : GenResponse) :
    (handleGenerateSectionLookml st sec resp).1.analysisResult = st.analysisResult := by
  cases h : st.analysisResult with
  | none => simp [handleGenerateSectionLookml, generateSectionPre, h]
  | some ar =>
      cases resp with
      | success code trunc prompt =>
          simp [handleGenerateSectionLookml, generateSectionPre, h, generateSectionResolve]
      | failure =>
          simp [handleGenerateSectionLookml, generateSectionPre, h, generateSectionResolve]

theorem runSections_trace (secs : List String) (st : AnalyzerState)
    (oracle : Nat → GenResponse) (i : Nat) (ar : AnalysisResult)
    (h : st.analysisResult = some ar) :
    (runSections st secs oracle i).2 = bulkTrace secs oracle i := by
  induction secs generalizing st i with
  | nil => simp [runSections, bulkTrace]
  | cons sec rest ih =>
      have h1 : ({ st with currentSectionIndex := i } : AnalyzerState).analysisResult =
          some ar := h
      have hissued :
          (handleGenerateSectionLookml { st with currentSectionIndex := i } sec
            (oracle i)).2 = true := by
        simp [handleGenerateSectionLookml, generateSectionPre, h]
      have hpres :
          (handleGenerateSectionLookml { st with currentSectionIndex := i } sec
            (oracle i)).1.analysisResult = some ar := by
        rw [generateSection_preserves_analysisResult]; exact h
      simp [runSections, bulkTrace, hissued, ih _ _ hpres]

theorem bulkTrace_requests (secs : List String) (oracle : Nat → GenResponse) (i : Nat) :
    requestedSections (bulkTrace secs oracle i) = secs := by
  induction secs generalizing i with
  | nil => simp [bulkTrace, requestedSections]
  | cons sec rest ih => simp [bulkTrace, requestedSections] at ih ⊢; exact ih _

/-- Claim C7: with an analysis result present and a non-empty selection,
the bulk-generate loop produces exactly the strictly sequential trace —
for each selected section in order, the running index is reported, then
that section's single request is issued and resolved (reaching a
terminal state) before the loop moves to the next section — and every
selected section is requested exactly once, in order, whatever the
transport outcomes (one section's failure does not stop the rest). -/
theorem c7_bulk_sequential (st : AnalyzerState) (oracle : Nat → GenResponse)
    (ar : AnalysisResult) (h : st.analysisResult = some ar)
    (hne : st.selectedSections ≠ []) :
    (handleGenerateAll st oracle).2 = bulkTrace st.selectedSections oracle 0 ∧
    requestedSections (handleGenerateAll st oracle).2 = st.selectedSections := by
  have hlen : st.selectedSections.length ≠ 0 :=
    fun h0 => hne (List.length_eq_zero.mp h0)
  constructor
  · simp [handleGenerateAll, h, hlen]
    exact runSections_trace _ _ _ _ ar rfl
  · simp [handleGenerateAll, h, hlen]
    rw [runSections_trace _ _ _ _ ar rfl, bulkTrace_requests]

/-- Witness for `c7_bulk_sequential`: bulk over `["explore", "orders"]`
with the first request failing still requests both sections, in order,
each resolved before the next starts. -/
theorem c7_witness :
    (handleGenerateAll
        { baseState with selectedSections := ["explore", "orders"] }
        (fun _ => GenResponse.failure)).2 =
      bulkTrace ["explore", "orders"] (fun _ => GenResponse.failure) 0 ∧
    requestedSections (handleGenerateAll
        { baseState with selectedSections := ["explore", "orders"] }
        (fun _ => GenResponse.failure)).2 = ["explore", "orders"] :=
  c7_bulk_sequential
    { baseState with selectedSections := ["explore", "orders"] }
    (fun _ => GenResponse.failure) (AnalysisResult.mk "m" "e" none none)
    (by decide) (by decide)

/-! ### Claim C8: the section deriver on the documented example -/

/-- The example analysis result of claim C8. -/
def c8Analysis : AnalysisResult :=
  AnalysisResult.mk "m" "e"
    (some [("orders.total", 10), ("orders.count", 3), ("users.name", 1)]) none

theorem sectionsFromFields_append (s : List String) (l l' : List (String × Int)) :
    sectionsFromFields s (l ++ l') = sectionsFromFields (sectionsFromFields s l) l' := by
  simp [sectionsFromFields, List.foldl_append]

theorem sectionsFromFields_malformed (s : List String) (nm : String) (w : Int)
    (h : (splitDot nm).length ≠ 2) :
    sectionsFromFields s [(nm, w)] = s := by
  simp only [sectionsFromFields, List.foldl_cons, List.foldl_nil]
  match hsp : splitDot nm with
  | [] => rfl
  | [_] => rfl
  | [a, b] => rw [hsp] at h; simp at h
  | _ :: _ :: _ :: _ => rfl

/-- Claim C8: on `topUsedFields
= [("orders.total",10),("orders.count",3),("users.name",1)]` with no
`rawAnalysis`, `getSections` returns exactly `["explore", "orders",
"users"]` — the root marker first, then the field-prefix names in first
appearance order without duplicates; and appending any malformed field
name (splitting into a number of parts other than two) contributes no
section. -/
theorem c8_getSections_example :
    getSections (some c8Analysis) = ["explore", "orders", "users"] ∧
    (∀ (nm : String) (w : Int), (splitDot nm).length ≠ 2 →
      getSections (some (AnalysisResult.mk "m" "e"
        (some ([("orders.total", 10), ("orders.count", 3), ("users.name", 1)] ++ [(nm, w)]))
        none)) = ["explore", "orders", "users"]) := by
  constructor
  · decide
  · intro nm w h
    show sectionsFromFields (addSection [] "explore")
        ([("orders.total", 10), ("orders.count", 3), ("users.name", 1)] ++ [(nm, w)]) =
      ["explore", "orders", "users"]
    rw [sectionsFromFields_append, sectionsFromFields_malformed _ _ _ h]
    decide

/-- Witness for the malformed-name conjunct of `c8_getSections_example`
at the separator-free name `"grandtotal"`. -/
theorem c8_witness :
    getSections (some (AnalysisResult.mk "m" "e"
      (some ([("orders.total", 10), ("orders.count", 3), ("users.name", 1)] ++
        [("grandtotal", 7)])) none)) = ["explore", "orders", "users"] :=
  c8_getSections_example.2 "grandtotal" 7 (by decide)

/-! ### Claim C9: the token estimator -/

/-- `ar` with extra weighted fields appended to `top_used_fields`. -/
def arAppend (ar : AnalysisResult) (extra : List (String × Int)) : AnalysisResult :=
  { ar with top_used_fields := some ((ar.top_used_fields.getD []) ++ extra) }

theorem arAppend_fields (ar : AnalysisResult) (extra : List (String × Int)) :
    (arAppend ar extra).top_used_fields.getD [] =
      (ar.top_used_fields.getD []) ++ extra := by
  simp [arAppend]

theorem joinFields_length_mono (l extra : List String) :
    (joinFields l).length ≤ (joinFields (l ++ extra)).length := by
  induction l with
  | nil => exact Nat.zero_le _
  | cons x xs ih =>
      cases xs with
      | nil =>
          cases extra with
          | nil => simp
          | cons e es =>
              simp only [List.cons_append, List.nil_append, joinFields,
                String.length_append]
              omega
      | cons y ys =>
          simp only [List.cons_append, List.append_eq, joinFields,
            String.length_append] at ih ⊢
          omega

theorem buildPrompt_length_mono (ar : AnalysisResult) (ud cq ug e1 e2 e3 : String)
    (extra : List (String × Int)) (sec : String) :
    (buildPrompt ar ud cq ug sec).length ≤
      (buildPrompt (arAppend ar extra) (ud ++ e1) (cq ++ e2) (ug ++ e3) sec).length := by
  by_cases hsec : sec = "explore"
  · subst hsec
    have hj := joinFields_length_mono
      ((ar.top_used_fields.getD []).map (fun f => f.1))
      (extra.map (fun f => f.1))
    rw [← List.map_append] at hj
    simp only [buildPrompt, if_pos, arAppend, Option.getD_some,
      String.length_append]
    simp only [List.map_append] at hj ⊢
    omega
  · have hj := joinFields_length_mono
      (((ar.top_used_fields.getD []).filter
        (fun f => startsWithJS f.1 (sec ++ "."))).map (fun f => f.1))
      ((extra.filter (fun f => startsWithJS f.1 (sec ++ "."))).map (fun f => f.1))
    rw [← List.map_append, ← List.filter_append] at hj
    simp only [buildPrompt, if_neg hsec, arAppend, Option.getD_some,
      String.length_append]
    simp only [List.filter_append, List.map_append] at hj ⊢
    omega

/-- Claim C9: the reported prompt-size estimate is exactly
`ceil(promptLength / 4)` of the synthesized prompt for the first
selected section; the estimate is monotonically non-decreasing when any
of the three context strings is extended or weighted fields are
appended; for a non-root section a field whose name does not start with
`sectionName + "."` leaves the synthesized prompt unchanged; and the
warning flag is set exactly when the estimate exceeds the 30000-token
threshold. -/
theorem c9_token_estimator (ar : AnalysisResult) (ud cq ug e1 e2 e3 : String)
    (extra : List (String × Int)) (sec : String) (rest : List String) :
    ((buildPrompt ar ud cq ug sec).length ≤
        4 * (promptSizeEffect ar ud cq ug (sec :: rest)).1 ∧
      4 * (promptSizeEffect ar ud cq ug (sec :: rest)).1 ≤
        (buildPrompt ar ud cq ug sec).length + 3) ∧
    estimateTokens (buildPrompt ar ud cq ug sec) ≤
      estimateTokens (buildPrompt (arAppend ar extra) (ud ++ e1) (cq ++ e2) (ug ++ e3) sec) ∧
    (∀ f : String × Int, sec ≠ "explore" → startsWithJS f.1 (sec ++ ".") = false →
      buildPrompt (arAppend ar [f]) ud cq ug sec = buildPrompt ar ud cq ug sec) ∧
    (promptSizeEffect ar ud cq ug (sec :: rest)).2 =
      decide ((promptSizeEffect ar ud cq ug (sec :: rest)).1 > 30000) := by
  refine ⟨?_, ?_, ?_, ?_⟩
  · have hmod : (buildPrompt ar ud cq ug sec).length % 4 < 4 :=
      Nat.mod_lt _ (by norm_num)
    have hdm := Nat.div_add_mod ((buildPrompt ar ud cq ug sec).length + 3) 4
    simp only [promptSizeEffect, estimateTokens]
    omega
  · exact Nat.div_le_div_right
      (Nat.add_le_add_right (buildPrompt_length_mono ar ud cq ug e1 e2 e3 extra sec) 3)
  · intro f hsec hpre
    simp [buildPrompt, hsec, arAppend, List.filter_append, List.filter_cons, hpre]
  · simp [promptSizeEffect]

/-- Witness for `c9_token_estimator`: a field of the `users` view does
not change the synthesized prompt of the `orders` section. -/
theorem c9_witness :
    buildPrompt (arAppend c8Analysis [("users.age", 2)]) "d" "q" "g" "orders" =
      buildPrompt c8Analysis "d" "q" "g" "orders" :=
  (c9_token_estimator c8Analysis "d" "q" "g" "" "" "" [("users.age", 2)] "orders"
    []).2.2.1 ("users.age", 2) (by decide) (by decide)

/-! ### Claim C3: missing vs non-numeric run counts -/

theorem mapGet_mapSet_self (m : List (String × JSNum)) (k : String) (v : JSNum) :
    mapGet (mapSet m k v) k = some v := by
  induction m with
  | nil => simp [mapSet, mapGet]
  | cons p rest ih =>
      obtain ⟨k', v'⟩ := p
      by_cases h : k' = k
      · subst h; simp [mapSet, mapGet]
      · simp [mapSet, mapGet, h, ih]

theorem mapGet_mapSet_ne (m : List (String × JSNum)) (k f : String) (v : JSNum)
    (h : f ≠ k) : mapGet (mapSet m k v) f = mapGet m f := by
  induction m with
  | nil => simp [mapSet, mapGet, Ne.symm h]
  | cons p rest ih =>
      obtain ⟨k', v'⟩ := p
      by_cases hk : k' = k
      · subst hk
        simp [mapSet, mapGet, Ne.symm h]
      · by_cases hf : k' = f
        · subst hf; simp [mapSet, mapGet, hk]
        · simp [mapSet, mapGet, hk, hf, ih]

/-- The per-field accumulation step of the aggregation loop, at a fixed
resolved run count `qc`. -/
def aggFold (qc : JSNum) (fs : List String) (m : List (String × JSNum)) :
    List (String × JSNum) :=
  fs.foldl (fun m f => mapSet m f (jsAdd (jsOrZero (mapGet m f)) qc)) m

theorem processRecord_eq_aggFold (m : List (String × JSNum)) (r : QueryRecord)
    (fs : List String) (hr : r.parsedFields = ParsedFields.array fs) :
    processRecord m r = aggFold (parseIntJS (jsOrStr r.runCount "0")) fs m := by
  simp [processRecord, hr, aggFold]

theorem aggFold_zero_preserves (fs : List String) (m : List (String × JSNum))
    (f : String) (w : Int) (h : mapGet m f = some (JSNum.num w)) :
    mapGet (aggFold (JSNum.num 0) fs m) f = some (JSNum.num w) := by
  induction fs generalizing m w with
  | nil => simpa [aggFold] using h
  | cons g rest ih =>
      simp only [aggFold, List.foldl_cons] at ih ⊢
      by_cases hg : f = g
      · subst hg
        have hv : jsAdd (jsOrZero (mapGet m f)) (JSNum.num 0) = JSNum.num w := by
          by_cases hw : w = 0 <;> simp [h, jsOrZero, jsFalsyNum, jsAdd, hw]
        exact ih _ _ (by rw [hv]; exact mapGet_mapSet_self m f (JSNum.num w))
      · exact ih _ _ (by rw [mapGet_mapSet_ne _ _ _ _ hg]; exact h)

theorem aggFold_zero_new (fs : List String) (m : List (String × JSNum))
    (f : String) (hmem : f ∈ fs) (h : mapGet m f = none) :
    mapGet (aggFold (JSNum.num 0) fs m) f = some (JSNum.num 0) := by
  induction fs generalizing m with
  | nil => cases hmem
  | cons g rest ih =>
      simp only [aggFold, List.foldl_cons] at ih ⊢
      by_cases hg : f = g
      · subst hg
        have hv : jsAdd (jsOrZero (mapGet m f)) (JSNum.num 0) = JSNum.num 0 := by
          simp [h, jsOrZero, jsAdd]
        rw [hv]
        exact aggFold_zero_preserves rest _ f 0 (mapGet_mapSet_self m f (JSNum.num 0))
      · have hmem' : f ∈ rest := by
          cases hmem with
          | head => exact absurd rfl hg
          | tail _ hh => exact hh
        exact ih _ hmem' (by rw [mapGet_mapSet_ne _ _ _ _ hg]; exact h)

theorem aggFold_nan_preserves (fs : List String) (m : List (String × JSNum))
    (f : String) (h : mapGet m f = some JSNum.nan) :
    mapGet (aggFold JSNum.nan fs m) f = some JSNum.nan := by
  induction fs generalizing m with
  | nil => simpa [aggFold] using h
  | cons g rest ih =>
      simp only [aggFold, List.foldl_cons] at ih ⊢
      by_cases hg : f = g
      · subst hg
        have hv : jsAdd (jsOrZero (mapGet m f)) JSNum.nan = JSNum.nan := by
          cases jsOrZero (mapGet m f) <;> simp [jsAdd]
        rw [hv]
        exact ih _ (mapGet_mapSet_self m f JSNum.nan)
      · exact ih _ (by rw [mapGet_mapSet_ne _ _ _ _ hg]; exact h)

theorem aggFold_nan_sets (fs : List String) (m : List (String × JSNum))
    (f : String) (hmem : f ∈ fs) :
    mapGet (aggFold JSNum.nan fs m) f = some JSNum.nan := by
  induction fs generalizing m with
  | nil => cases hmem
  | cons g rest ih =>
      simp only [aggFold, List.foldl_cons] at ih ⊢
      by_cases hg : f = g
      · subst hg
        have hv : jsAdd (jsOrZero (mapGet m f)) JSNum.nan = JSNum.nan := by
          cases jsOrZero (mapGet m f) <;> simp [jsAdd]
        rw [hv]
        exact aggFold_nan_preserves rest _ f (mapGet_mapSet_self m f JSNum.nan)
      · have hmem' : f ∈ rest := by
          cases hmem with
          | head => exact absurd rfl hg
          | tail _ hh => exact hh
        exact ih _ hmem'

/-- Claim C3, counterexample: a record whose run-count string is the
non-numeric `"x"` does not leave the accumulated weight unchanged — it
overwrites the previously accumulated `5` with `NaN`; and a field seen
only in such records ends with weight `NaN`, not `0`. -/
theorem c3_counterexample :
    fieldWeights [⟨ParsedFields.array ["a.x"], some "5"⟩] =
      [("a.x", JSNum.num 5)] ∧
    fieldWeights [⟨ParsedFields.array ["a.x"], some "5"⟩,
      ⟨ParsedFields.array ["a.x"], some "x"⟩] = [("a.x", JSNum.nan)] ∧
    JSNum.nan ≠ JSNum.num 5 ∧
    fieldWeights [⟨ParsedFields.array ["a.x"], some "x"⟩] =
      [("a.x", JSNum.nan)] ∧
    JSNum.nan ≠ JSNum.num 0 := by
  decide

/-- Claim C3, amended: a record whose run-count attribute is absent (or
empty) contributes 0 — numerically accumulated weights are unchanged and
fields first seen in it enter with weight 0; but a record whose
run-count string is non-numeric (`parseInt` yields `NaN`) sets the
accumulated weight of every field it lists to `NaN`, discarding any
previously accumulated value. -/
theorem c3_runcount_semantics (m : List (String × JSNum)) (r : QueryRecord)
    (fs : List String) (hr : r.parsedFields = ParsedFields.array fs) :
    (r.runCount = none →
      (∀ f w, mapGet m f = some (JSNum.num w) →
        mapGet (processRecord m r) f = some (JSNum.num w)) ∧
      (∀ f, f ∈ fs → mapGet m f = none →
        mapGet (processRecord m r) f = some (JSNum.num 0))) ∧
    (parseIntJS (jsOrStr r.runCount "0") = JSNum.nan →
      ∀ f, f ∈ fs → mapGet (processRecord m r) f = some JSNum.nan) := by
  rw [processRecord_eq_aggFold m r fs hr]
  constructor
  · intro hnone
    have hq : parseIntJS (jsOrStr r.runCount "0") = JSNum.num 0 := by
      rw [hnone]; decide
    rw [hq]
    exact ⟨fun f w h => aggFold_zero_preserves fs m f w h,
      fun f hmem h => aggFold_zero_new fs m f hmem h⟩
  · intro hnan
    rw [hnan]
    exact fun f hmem => aggFold_nan_sets fs m f hmem

/-- Witness for `c3_runcount_semantics`: a record listing `"a.x"` with a
non-numeric run count `"x"` leaves the field at weight `NaN`. -/
theorem c3_witness :
    mapGet (processRecord [("a.x", JSNum.num 5)]
      ⟨ParsedFields.array ["a.x"], some "x"⟩) "a.x" = some JSNum.nan :=
  (c3_runcount_semantics [("a.x", JSNum.num 5)]
    ⟨ParsedFields.array ["a.x"], some "x"⟩ ["a.x"] rfl).2 (by decide) "a.x"
    (by decide)

/-! ### Claim C4: sortedness and stability of `sortedFields` -/

/-- Every accumulated weight is a number (no `NaN`). -/
def allNumP (l : List (String × JSNum)) : Prop :=
  ∀ p ∈ l, p.2 ≠ JSNum.nan

/-- Decidable per-record condition: whenever the record's field list
parsed as an array, its resolved run count is numeric. -/
def recCountNumeric (r : QueryRecord) : Bool :=
  match r.parsedFields with
  | ParsedFields.array _ => parseIntJS (jsOrStr r.runCount "0") ≠ JSNum.nan
  | _ => true

theorem mem_mapSet (m : List (String × JSNum)) (k : String) (v : JSNum)
    (p : String × JSNum) (h : p ∈ mapSet m k v) : p ∈ m ∨ p = (k, v) := by
  induction m with
  | nil => simpa [mapSet] using h
  | cons q rest ih =>
      obtain ⟨k', v'⟩ := q
      by_cases hk : k' = k
      · subst hk
        simp only [mapSet, if_pos rfl] at h
        rcases List.mem_cons.mp h with h1 | h1
        · exact Or.inr h1
        · exact Or.inl (List.mem_cons_of_mem _ h1)
      · simp only [mapSet, if_neg hk] at h
        rcases List.mem_cons.mp h with h1 | h1
        · exact Or.inl (h1 ▸ List.mem_cons_self _ _)
        · rcases ih h1 with h2 | h2
          · exact Or.inl (List.mem_cons_of_mem _ h2)
          · exact Or.inr h2

theorem jsOrZero_ne_nan (o : Option JSNum) : jsOrZero o ≠ JSNum.nan := by
  cases o with
  | none => simp [jsOrZero]
  | some v =>
      cases v with
      | num n => by_cases hn : n = 0 <;> simp [jsOrZero, jsFalsyNum, hn]
      | nan => simp [jsOrZero, jsFalsyNum]

theorem aggFold_allNum (qc : JSNum) (hqc : qc ≠ JSNum.nan) (fs : List String)
    (m : List (String × JSNum)) (hm : allNumP m) : allNumP (aggFold qc fs m) := by
  induction fs generalizing m with
  | nil => simpa [aggFold] using hm
  | cons g rest ih =>
      simp only [aggFold, List.foldl_cons] at ih ⊢
      apply ih
      intro p hp
      rcases mem_mapSet _ _ _ _ hp with h1 | h1
      · exact hm p h1
      · subst h1
        obtain ⟨a, ha⟩ : ∃ a, jsOrZero (mapGet m g) = JSNum.num a := by
          cases hj : jsOrZero (mapGet m g) with
          | num a => exact ⟨a, rfl⟩
          | nan => exact absurd hj (jsOrZero_ne_nan _)
        obtain ⟨b, hb⟩ : ∃ b, qc = JSNum.num b := by
          cases hq : qc with
          | num b => exact ⟨b, rfl⟩
          | nan => exact absurd hq hqc
        simp [ha, hb, jsAdd]

theorem processRecord_allNum (m : List (String × JSNum)) (r : QueryRecord)
    (hr : recCountNumeric r = true) (hm : allNumP m) :
    allNumP (processRecord m r) := by
  cases hpf : r.parsedFields with
  | throws => simpa [processRecord, hpf] using hm
  | notArray => simpa [processRecord, hpf] using hm
  | array fs =>
      rw [processRecord_eq_aggFold m r fs hpf]
      apply aggFold_allNum _ _ _ _ hm
      simpa [recCountNumeric, hpf] using hr

theorem fieldWeights_foldl_allNum (recs : List QueryRecord)
    (m : List (String × JSNum)) (h : ∀ r ∈ recs, recCountNumeric r = true)
    (hm : allNumP m) : allNumP (recs.foldl processRecord m) := by
  induction recs generalizing m with
  | nil => simpa using hm
  | cons r rest ih =>
      simp only [List.foldl_cons]
      exact ih _ (fun r' hr' => h r' (List.mem_cons_of_mem _ hr'))
        (processRecord_allNum m r (h r (List.mem_cons_self _ _)) hm)

theorem fieldWeights_allNum (recs : List QueryRecord)
    (h : ∀ r ∈ recs, recCountNumeric r = true) : allNumP (fieldWeights recs) :=
  fieldWeights_foldl_allNum recs [] h (by intro p hp; cases hp)

theorem keys_mapSet (m : List (String × JSNum)) (k : String) (v : JSNum) :
    (mapSet m k v).map Prod.fst =
      if k ∈ m.map Prod.fst then m.map Prod.fst else m.map Prod.fst ++ [k] := by
  induction m with
  | nil => simp [mapSet]
  | cons q rest ih =>
      obtain ⟨k', v'⟩ := q
      by_cases hk : k' = k
      · subst hk; simp [mapSet]
      · simp only [mapSet, if_neg hk, List.map_cons, ih]
        by_cases hmem : k ∈ rest.map Prod.fst
        · simp [hmem, Ne.symm hk]
        · simp [hmem, Ne.symm hk]

theorem nodup_keys_mapSet (m : List (String × JSNum)) (k : String) (v : JSNum)
    (h : (m.map Prod.fst).Nodup) : ((mapSet m k v).map Prod.fst).Nodup := by
  rw [keys_mapSet]
  by_cases hmem : k ∈ m.map Prod.fst
  · simpa [hmem] using h
  · simp only [if_neg hmem]
    simpa [List.nodup_append, hmem] using h

theorem aggFold_nodup (qc : JSNum) (fs : List String) (m : List (String × JSNum))
    (hm : (m.map Prod.fst).Nodup) : ((aggFold qc fs m).map Prod.fst).Nodup := by
  induction fs generalizing m with
  | nil => simpa [aggFold] using hm
  | cons g rest ih =>
      simp only [aggFold, List.foldl_cons] at ih ⊢
      exact ih _ (nodup_keys_mapSet _ _ _ hm)

theorem processRecord_nodup (m : List (String × JSNum)) (r : QueryRecord)
    (hm : (m.map Prod.fst).Nodup) :
    ((processRecord m r).map Prod.fst).Nodup := by
  cases hpf : r.parsedFields with
  | throws => simpa [processRecord, hpf] using hm
  | notArray => simpa [processRecord, hpf] using hm
  | array fs =>
      rw [processRecord_eq_aggFold m r fs hpf]
      exact aggFold_nodup _ _ _ hm

theorem fieldWeights_foldl_nodup (recs : List QueryRecord)
    (m : List (String × JSNum)) (hm : (m.map Prod.fst).Nodup) :
    (((recs.foldl processRecord m)).map Prod.fst).Nodup := by
  induction recs generalizing m with
  | nil => simpa using hm
  | cons r rest ih =>
      simp only [List.foldl_cons]
      exact ih _ (processRecord_nodup m r hm)

theorem fieldWeights_nodup (recs : List QueryRecord) :
    ((fieldWeights recs).map Prod.fst).Nodup :=
  fieldWeights_foldl_nodup recs [] (by simp)

theorem mem_insertDesc (x : String × JSNum) (l : List (String × JSNum))
    (p : String × JSNum) : p ∈ insertDesc x l ↔ p = x ∨ p ∈ l := by
  induction l with
  | nil => simp [insertDesc]
  | cons y ys ih =>
      by_cases hlt : sortCompare x y < 0
      · simp only [insertDesc, if_pos hlt, List.mem_cons]
      · simp only [insertDesc, if_neg hlt, List.mem_cons, ih]
        tauto

theorem keys_sublist_insertDesc (x : String × JSNum) (l : List (String × JSNum)) :
    List.Sublist (l.map Prod.fst) ((insertDesc x l).map Prod.fst) := by
  induction l with
  | nil => simp [insertDesc]
  | cons y ys ih =>
      by_cases hlt : sortCompare x y < 0
      · simp only [insertDesc, if_pos hlt, List.map_cons]
        exact List.sublist_cons_self _ _
      · simp only [insertDesc, if_neg hlt, List.map_cons]
        exact List.Sublist.cons₂ _ ih

theorem sortCompare_num (x y : String × JSNum) (a b : Int) (hx : x.2 = JSNum.num a)
    (hy : y.2 = JSNum.num b) : sortCompare x y = b - a := by
  simp [sortCompare, jsSub, hx, hy]

theorem wGeB_num (v w : JSNum) (a b : Int) (hv : v = JSNum.num a)
    (hw : w = JSNum.num b) : wGeB v w = decide (b ≤ a) := by
  simp [wGeB, hv, hw]

/-- In a sorted list of numeric entries, the head weight dominates every
later weight. -/
theorem sorted_head_dominates (z : String × JSNum) (zs : List (String × JSNum))
    (h : isSortedDesc (z :: zs) = true) (hz : allNumP (z :: zs)) :
    ∀ p ∈ zs, wGeB z.2 p.2 = true := by
  induction zs generalizing z with
  | nil => intro p hp; cases hp
  | cons w ws ih =>
      intro p hp
      have h1 : wGeB z.2 w.2 = true ∧ isSortedDesc (w :: ws) = true := by
        simpa [isSortedDesc, Bool.and_eq_true] using h
      rcases List.mem_cons.mp hp with hpw | hpws
      · subst hpw; exact h1.1
      · have hw : allNumP (w :: ws) := fun q hq => hz q (List.mem_cons_of_mem _ hq)
        have h2 := ih w h1.2 hw p hpws
        obtain ⟨a, ha⟩ : ∃ a, z.2 = JSNum.num a := by
          cases hz2 : z.2 with
          | num a => exact ⟨a, rfl⟩
          | nan => exact absurd hz2 (hz z (List.mem_cons_self _ _))
        obtain ⟨b, hb⟩ : ∃ b, w.2 = JSNum.num b := by
          cases hw2 : w.2 with
          | num b => exact ⟨b, rfl⟩
          | nan => exact absurd hw2 (hw w (List.mem_cons_self _ _))
        obtain ⟨c, hc⟩ : ∃ c, p.2 = JSNum.num c := by
          cases hp2 : p.2 with
          | num c => exact ⟨c, rfl⟩
          | nan => exact absurd hp2 (hw p (List.mem_cons_of_mem _ hpws))
        rw [wGeB_num _ _ _ _ ha hc]
        rw [wGeB_num _ _ _ _ ha hb] at h1
        rw [wGeB_num _ _ _ _ hb hc] at h2
        simp only [decide_eq_true_eq] at h1 h2 ⊢
        omega

theorem insertDesc_sorted (x : String × JSNum) (l : List (String × JSNum))
    (hx : x.2 ≠ JSNum.nan) (hl : allNumP l) (h : isSortedDesc l = true) :
    isSortedDesc (insertDesc x l) = true := by
  obtain ⟨a, hxa⟩ : ∃ a, x.2 = JSNum.num a := by
    cases hx2 : x.2 with
    | num a => exact ⟨a, rfl⟩
    | nan => exact absurd hx2 hx
  induction l with
  | nil => simp [insertDesc, isSortedDesc]
  | cons y ys ih =>
      obtain ⟨b, hyb⟩ : ∃ b, y.2 = JSNum.num b := by
        cases hy2 : y.2 with
        | num b => exact ⟨b, rfl⟩
        | nan => exact absurd hy2 (hl y (List.mem_cons_self _ _))
      have hys : allNumP ys := fun p hp => hl p (List.mem_cons_of_mem _ hp)
      have hcmp : sortCompare x y = b - a := sortCompare_num x y a b hxa hyb
      by_cases hlt : sortCompare x y < 0
      · have hba : b < a := by omega
        simp only [insertDesc, if_pos hlt, isSortedDesc, Bool.and_eq_true]
        refine ⟨?_, h⟩
        rw [wGeB_num _ _ _ _ hxa hyb]
        simp; omega
      · have hab : a ≤ b := by omega
        cases ys with
        | nil =>
            simp only [insertDesc, if_neg hlt, isSortedDesc, Bool.and_eq_true]
            refine ⟨?_, by simp [isSortedDesc]⟩
            rw [wGeB_num _ _ _ _ hyb hxa]
            simp; omega
        | cons z zs =>
            have h1 : wGeB y.2 z.2 = true ∧ isSortedDesc (z :: zs) = true := by
              simpa [isSortedDesc, Bool.and_eq_true] using h
            have ihz := ih hys h1.2
            by_cases hltz : sortCompare x z < 0
            · simp only [insertDesc, if_neg hlt, if_pos hltz, isSortedDesc,
                Bool.and_eq_true] at ihz ⊢
              refine ⟨?_, ihz⟩
              rw [wGeB_num _ _ _ _ hyb hxa]
              simp; omega
            · simp only [insertDesc, if_neg hlt, if_neg hltz, isSortedDesc,
                Bool.and_eq_true] at ihz ⊢
              exact ⟨h1.1, ihz⟩

theorem insertDesc_after_ties (x : String × JSNum) (l : List (String × JSNum))
    (y : String × JSNum) (hx : x.2 ≠ JSNum.nan) (hl : allNumP l)
    (hsorted : isSortedDesc l = true) (hy : y ∈ l) (heq : y.2 = x.2) :
    List.Sublist [y.1, x.1] ((insertDesc x l).map Prod.fst) := by
  obtain ⟨a, hxa⟩ : ∃ a, x.2 = JSNum.num a := by
    cases hx2 : x.2 with
    | num a => exact ⟨a, rfl⟩
    | nan => exact absurd hx2 hx
  induction l with
  | nil => cases hy
  | cons z zs ih =>
      obtain ⟨c, hzc⟩ : ∃ c, z.2 = JSNum.num c := by
        cases hz2 : z.2 with
        | num c => exact ⟨c, rfl⟩
        | nan => exact absurd hz2 (hl z (List.mem_cons_self _ _))
      have hzs : allNumP zs := fun p hp => hl p (List.mem_cons_of_mem _ hp)
      have hcmp : sortCompare x z = c - a := sortCompare_num x z a c hxa hzc
      by_cases hlt : sortCompare x z < 0
      · exfalso
        have hca : c < a := by omega
        rcases List.mem_cons.mp hy with hyz | hyzs
        · subst hyz
          rw [heq, hxa] at hzc
          have : a = c := by injection hzc
          omega
        · have hdom := sorted_head_dominates z zs hsorted hl y hyzs
          rw [wGeB_num _ _ _ _ hzc (heq.trans hxa)] at hdom
          simp only [decide_eq_true_eq] at hdom
          omega
      · simp only [insertDesc, if_neg hlt, List.map_cons]
        rcases List.mem_cons.mp hy with hyz | hyzs
        · subst hyz
          have hxmem : x ∈ insertDesc x zs := (mem_insertDesc x zs x).mpr (Or.inl rfl)
          have : x.1 ∈ (insertDesc x zs).map Prod.fst :=
            List.mem_map_of_mem Prod.fst hxmem
          exact List.Sublist.cons₂ _ (List.singleton_sublist.mpr this)
        · have hsorted' : isSortedDesc zs = true := by
            cases zs with
            | nil => rfl
            | cons w ws =>
                have := (by simpa [isSortedDesc, Bool.and_eq_true] using hsorted :
                  wGeB z.2 w.2 = true ∧ isSortedDesc (w :: ws) = true)
                exact this.2
          exact List.Sublist.cons _ (ih hzs hsorted' hyzs)

theorem foldl_insertDesc_sorted (l : List (String × JSNum)) :
    ∀ acc, allNumP l → allNumP acc → isSortedDesc acc = true →
    isSortedDesc (l.foldl (fun a x => insertDesc x a) acc) = true := by
  induction l with
  | nil => intro acc _ _ hs; simpa using hs
  | cons x rest ih =>
      intro acc hl hacc hs
      simp only [List.foldl_cons]
      have hx : x.2 ≠ JSNum.nan := hl x (List.mem_cons_self _ _)
      have hrest : allNumP rest := fun p hp => hl p (List.mem_cons_of_mem _ hp)
      have hacc' : allNumP (insertDesc x acc) := by
        intro p hp
        rcases (mem_insertDesc x acc p).mp hp with rfl | hp2
        · exact hx
        · exact hacc p hp2
      exact ih _ hrest hacc' (insertDesc_sorted x acc hx hacc hs)

theorem sublist_append_singleton {l ys : List String} {a : String}
    (h : List.Sublist l (ys ++ [a])) :
    List.Sublist l ys ∨ ∃ l', l = l' ++ [a] ∧ List.Sublist l' ys := by
  rcases List.sublist_append_iff.mp h with ⟨r1, r2, rfl, h1, h2⟩
  rcases List.sublist_singleton.mp h2 with rfl | rfl
  · exact Or.inl (by simpa using h1)
  · exact Or.inr ⟨r1, rfl, h1⟩

theorem foldl_insertDesc_stable (rest : List (String × JSNum)) :
    ∀ (acc consumed : List (String × JSNum)),
    allNumP (consumed ++ rest) →
    ((consumed ++ rest).map Prod.fst).Nodup →
    (∀ p : String × JSNum, p ∈ acc ↔ p ∈ consumed) →
    isSortedDesc acc = true →
    (∀ k1 k2 w, (k1, w) ∈ consumed → (k2, w) ∈ consumed →
      List.Sublist [k1, k2] (consumed.map Prod.fst) →
      List.Sublist [k1, k2] (acc.map Prod.fst)) →
    ∀ k1 k2 w, (k1, w) ∈ consumed ++ rest → (k2, w) ∈ consumed ++ rest →
      List.Sublist [k1, k2] ((consumed ++ rest).map Prod.fst) →
      List.Sublist [k1, k2]
        ((rest.foldl (fun a x => insertDesc x a) acc).map Prod.fst) := by
  induction rest with
  | nil =>
      intro acc consumed hall hnodup hmem hsorted hstab k1 k2 w h1 h2 hsub
      simp only [List.append_nil] at h1 h2 hsub
      simpa using hstab k1 k2 w h1 h2 hsub
  | cons x rest' ih =>
      intro acc consumed hall hnodup hmem hsorted hstab k1 k2 w h1 h2 hsub
      simp only [List.foldl_cons]
      have hassoc : consumed ++ x :: rest' = (consumed ++ [x]) ++ rest' := by simp
      have hxnum : x.2 ≠ JSNum.nan := hall x (by simp)
      have haccnum : allNumP acc := fun p hp =>
        hall p (List.mem_append_left _ ((hmem p).mp hp))
      have hx1notin : x.1 ∉ consumed.map Prod.fst := by
        have hnd : ((consumed.map Prod.fst) ++ x.1 :: (rest'.map Prod.fst)).Nodup := by
          simpa using hnodup
        rcases List.nodup_append.mp hnd with ⟨_, _, hdisj⟩
        intro hmem1
        exact (hdisj hmem1) (List.mem_cons_self _ _)
      have hmem' : ∀ p : String × JSNum, p ∈ insertDesc x acc ↔ p ∈ consumed ++ [x] := by
        intro p
        rw [mem_insertDesc, hmem p]
        simp [or_comm]
      have hsorted' : isSortedDesc (insertDesc x acc) = true :=
        insertDesc_sorted x acc hxnum haccnum hsorted
      have hnodup12 : ((consumed ++ [x]).map Prod.fst).Nodup := by
        rw [hassoc, List.map_append] at hnodup
        exact List.Nodup.sublist (List.sublist_append_left _ _) hnodup
      have hstab' : ∀ k1 k2 w, (k1, w) ∈ consumed ++ [x] → (k2, w) ∈ consumed ++ [x] →
          List.Sublist [k1, k2] ((consumed ++ [x]).map Prod.fst) →
          List.Sublist [k1, k2] ((insertDesc x acc).map Prod.fst) := by
        intro k1 k2 w hk1 hk2 hksub
        have hksub' : List.Sublist [k1, k2] (consumed.map Prod.fst ++ [x.1]) := by
          simpa using hksub
        rcases sublist_append_singleton hksub' with hcase | ⟨l', hl', hl'sub⟩
        · have hk1mem : k1 ∈ consumed.map Prod.fst :=
            hcase.subset (by simp)
          have hk2mem : k2 ∈ consumed.map Prod.fst :=
            hcase.subset (by simp)
          have hk1' : (k1, w) ∈ consumed := by
            rcases List.mem_append.mp hk1 with hh | hh
            · exact hh
            · exfalso
              have hx1 : (k1, w) = x := by simpa using hh
              rw [← hx1] at hx1notin
              exact hx1notin hk1mem
          have hk2' : (k2, w) ∈ consumed := by
            rcases List.mem_append.mp hk2 with hh | hh
            · exact hh
            · exfalso
              have hx2 : (k2, w) = x := by simpa using hh
              rw [← hx2] at hx1notin
              exact hx1notin hk2mem
          exact (hstab k1 k2 w hk1' hk2' hcase).trans (keys_sublist_insertDesc x acc)
        · have hk2x : k2 = x.1 := by
            cases l' with
            | nil => simp at hl'
            | cons u us =>
                cases us with
                | nil =>
                    simp only [List.cons_append, List.nil_append,
                      List.cons.injEq] at hl'
                    exact hl'.2.1
                | cons v vs =>
                    exfalso
                    have := congrArg List.length hl'
                    simp at this
          rcases List.mem_append.mp hk1 with hh | hh
          · -- (k1, w) in consumed; the pair (k2, w) must be x itself
            have hk2pair : (k2, w) = x := by
              rcases List.mem_append.mp hk2 with hh2 | hh2
              · exfalso
                have : k2 ∈ consumed.map Prod.fst :=
                  List.mem_map_of_mem Prod.fst hh2
                rw [hk2x] at this
                exact hx1notin this
              · simpa using hh2
            have hweq : w = x.2 := congrArg Prod.snd hk2pair
            have hy : (k1, w) ∈ acc := (hmem _).mpr hh
            have := insertDesc_after_ties x acc (k1, w) hxnum haccnum hsorted hy hweq
            rw [hk2x]
            exact this
          · -- (k1, w) = x: then [k1, k2] = [x.1, x.1], impossible in a nodup list
            exfalso
            have hk1x : k1 = x.1 := congrArg Prod.fst (by simpa using hh)
            have hnd2 : ([k1, k2] : List String).Nodup :=
              List.Nodup.sublist hksub hnodup12
            rw [hk1x, hk2x] at hnd2
            simp at hnd2
      rw [hassoc] at hall hnodup h1 h2 hsub
      exact ih (insertDesc x acc) (consumed ++ [x]) hall hnodup hmem' hsorted'
        hstab' k1 k2 w h1 h2 hsub

/-- Claim C4, counterexample: a record with a non-numeric run count
yields a `NaN` weight; the sort comparator treats every comparison with
`NaN` as a tie, so the stable sort leaves the `NaN` entry in front of
strictly larger weights and the output is not sorted by non-increasing
weight. -/
theorem c4_counterexample :
    sortedFields
      [⟨ParsedFields.array ["a"], some "x"⟩,
       ⟨ParsedFields.array ["b"], some "3"⟩,
       ⟨ParsedFields.array ["c"], some "5"⟩] =
      [("a", JSNum.nan), ("c", JSNum.num 5), ("b", JSNum.num 3)] ∧
    isSortedDesc (sortedFields
      [⟨ParsedFields.array ["a"], some "x"⟩,
       ⟨ParsedFields.array ["b"], some "3"⟩,
       ⟨ParsedFields.array ["c"], some "5"⟩]) = false := by
  decide

/-- Claim C4, amended: for input records whose resolved run counts are
all numeric (no `NaN` weights arise), the output of `sortedFields` is
sorted by non-increasing weight, and any two entries with equal weight
appear in the order their field names were first seen (the insertion
order of the accumulated map). -/
theorem c4_sorted_stable_numeric (recs : List QueryRecord)
    (h : ∀ r ∈ recs, recCountNumeric r = true) :
    isSortedDesc (sortedFields recs) = true ∧
    (∀ k1 k2 w1 w2, (k1, w1) ∈ fieldWeights recs → (k2, w2) ∈ fieldWeights recs →
      w1 = w2 →
      List.Sublist [k1, k2] ((fieldWeights recs).map Prod.fst) →
      List.Sublist [k1, k2] ((sortedFields recs).map Prod.fst)) := by
  have hall := fieldWeights_allNum recs h
  have hnodup := fieldWeights_nodup recs
  constructor
  · simp only [sortedFields, sortEntries]
    exact foldl_insertDesc_sorted (fieldWeights recs) [] hall
      (by intro p hp; cases hp) rfl
  · intro k1 k2 w1 w2 h1 h2 heq hsub
    subst heq
    simp only [sortedFields, sortEntries]
    refine foldl_insertDesc_stable (fieldWeights recs) [] [] ?_ ?_ ?_ rfl ?_
      k1 k2 w1 ?_ ?_ ?_
    · simpa using hall
    · simpa using hnodup
    · intro p; simp
    · intro a b w ha hb hs; cases ha
    · simpa using h1
    · simpa using h2
    · simpa using hsub

/-- Witness for `c4_sorted_stable_numeric` on numeric-count records. -/
theorem c4_witness :
    isSortedDesc (sortedFields
      [⟨ParsedFields.array ["a.x", "a.y"], some "5"⟩,
       ⟨ParsedFields.array ["a.x"], some "3"⟩]) = true :=
  (c4_sorted_stable_numeric
    [⟨ParsedFields.array ["a.x", "a.y"], some "5"⟩,
     ⟨ParsedFields.array ["a.x"], some "3"⟩] (by decide)).1
